import Mathlib

/-!
Verification of the kinetic Monte Carlo simulation core in
`pymatgen/reaction_network/simulation_li_limited_fxns.py`.

Modelling conventions:
- Python integers are `Int`, floating point values are `ℚ` (all the arithmetic
  the code performs on propensities is exact products and sums, so rationals
  are a faithful model); the waiting-time formula, which needs a logarithm,
  is modelled over `ℝ`.
- Python negative indexing on arrays is modelled explicitly (`pyIdx`).
- Exceptions are modelled with `Except` / `Option`; the error value of
  `update_state` carries the array contents at the moment of the raise,
  modelling in-place mutation observed by the caller.
- The module-level constant `num_entries = 5732` and the concentration-to-count
  table `initial_state_dict` are abstracted into the parameters `numEntries`
  and `ic : Nat → Int` (which models `initial_state_dict.get(id, 0)`).
-/

set_option autoImplicit false

namespace KMC

/-- Python index resolution for a sequence of the given length: a negative
index counts from the end of the sequence. -/
def pyIdx (len : Nat) (i : Int) : Nat :=
  if 0 ≤ i then i.toNat else len - (-i).toNat

/-- Python read `l[i]` on an integer array. Out-of-range reads, which raise in
Python, return 0 here; every theorem below restricts to in-range indices. -/
def pyGet (l : List Int) (i : Int) : Int :=
  l.getD (pyIdx l.length i) 0

/-- Python write `l[i] = v` on an integer array. -/
def pySet (l : List Int) (i : Int) (v : Int) : List Int :=
  l.set (pyIdx l.length i) v

/-- Python row read `rows[i, :]` on a 2-column integer array, rows as pairs. -/
def pyRow (rows : List (Int × Int)) (i : Int) : Int × Int :=
  rows.getD (pyIdx rows.length i) (-1, -1)

/-- One reaction descriptor of the input network: reactant and product
entry-id lists and the forward/reverse rate constants `k_A`, `k_B`. -/
structure Reaction where
  reactants : List Nat
  products : List Nat
  kA : ℚ
  kB : ℚ
deriving DecidableEq

/-- Errors that `initialize_simulation` can raise: `indexError` models the
numpy `IndexError` from writing slot 2 of a 2-column row (a side with three
or more species), `validation` models the explicit
`RuntimeError("Only single and bimolecular reactions supported ...")`. -/
inductive SimErr where
  | indexError
  | validation
deriving DecidableEq

/-- Filling one 2-column row of `reactant_array` / `product_array`
(lines 81-91): each species id is written into its slot; a third species
overflows the 2-column row and raises a numpy `IndexError`. -/
def rowOfSide (side : List Nat) : Except SimErr (Int × Int) :=
  match side with
  | [] => .ok (-1, -1)
  | [a] => .ok ((a : Int), -1)
  | [a, b] => .ok ((a : Int), (b : Int))
  | _ => .error .indexError

/-- Compile-time coordination number of one reaction side (lines 96-112):
one species gives `n`, two identical species give `n*(n-1)`, two distinct
species give `n1*n2`; any other arity raises the validation error.
`ic` models `initial_state_dict.get(id, 0)`. -/
def coordOfSide (ic : Nat → Int) (side : List Nat) : Except SimErr ℚ :=
  match side with
  | [a] => .ok ((ic a : ℚ))
  | [a, b] =>
    if a = b then .ok ((ic a : ℚ) * ((ic a : ℚ) - 1))
    else .ok ((ic a : ℚ) * (ic b : ℚ))
  | _ => .error .validation

/-- Appending channel index `ch` to `species_rxn_mapping_list[s]` for every
occurrence of a species `s` on one reaction side (lines 84 and 90). -/
def updMap (m : Nat → List Int) (side : List Nat) (ch : Int) : Nat → List Int :=
  side.foldl (fun mm s t => if t = s then mm t ++ [ch] else mm t) m

/-- Accumulator of the compilation loop of `initialize_simulation`. -/
structure CompileAcc where
  reactantRows : List (Int × Int)
  productRows : List (Int × Int)
  coord : List ℚ
  rates : List ℚ
  mapping : Nat → List Int

/-- Body of the loop `for id, reaction in enumerate(reaction_network.reactions)`
(lines 74-112): fill the reactant row, then the product row (numpy index
errors for arity above 2 happen here, before any arity check), record the
mapping entries and the rate constants, then compute the forward and the
reverse coordination numbers (validation errors happen here, for arity 0). -/
def processReaction (ic : Nat → Int) (acc : CompileAcc) (idr : Nat × Reaction) :
    Except SimErr CompileAcc :=
  match rowOfSide idr.2.reactants with
  | .error e => .error e
  | .ok rrow =>
    match rowOfSide idr.2.products with
    | .error e => .error e
    | .ok prow =>
      match coordOfSide ic idr.2.reactants with
      | .error e => .error e
      | .ok cF =>
        match coordOfSide ic idr.2.products with
        | .error e => .error e
        | .ok cR =>
          .ok ⟨acc.reactantRows ++ [rrow], acc.productRows ++ [prow],
               acc.coord ++ [cF, cR], acc.rates ++ [idr.2.kA, idr.2.kB],
               updMap (updMap acc.mapping idr.2.reactants (2 * (idr.1 : Int)))
                 idr.2.products (2 * (idr.1 : Int) + 1)⟩

/-- `enumerate(reactions)` starting from index `k`. -/
def withIds (k : Nat) : List Reaction → List (Nat × Reaction)
  | [] => []
  | r :: rs => (k, r) :: withIds (k + 1) rs

/-- The compilation loop itself, stopping at the first raised error. -/
def compileRxns (ic : Nat → Int) (acc : CompileAcc) :
    List (Nat × Reaction) → Except SimErr CompileAcc
  | [] => .ok acc
  | idr :: rest =>
    match processReaction ic acc idr with
    | .error e => .error e
    | .ok acc2 => compileRxns ic acc2 rest

/-- Resolution of a Python slice stop value for a sequence of length `len`:
a negative stop counts from the end. -/
def pyStop (len : Nat) (stop : Int) : Nat :=
  if 0 ≤ stop then min stop.toNat len else ((len : Int) + stop).toNat

/-- Padding of one row of `species_rxn_mapping` (lines 119-125): a full-length
list is assigned to the whole row, a shorter list is assigned through the
slice `[: this_map_length - max_mapping_length]`, whose negative stop resolves
from the end of the row; the rest of the row keeps the `-1` fill. -/
def padRow (maxLen : Nat) (l : List Int) : List Int :=
  if l.length = maxLen then l
  else
    let stop := pyStop maxLen ((l.length : Int) - (maxLen : Int))
    l.take stop ++ (List.replicate maxLen (-1 : Int)).drop stop

/-- Compiled output of `initialize_simulation` (line 127), without the
initial-state dict, which is the parameter `ic` itself. -/
structure InitResult where
  initialState : List Int
  mapping : List (List Int)
  reactantRows : List (Int × Int)
  productRows : List (Int × Int)
  coord : List ℚ
  rates : List ℚ
deriving DecidableEq

/-- The network compiler `initialize_simulation` (lines 41-127): loop over the
reactions building the row tables, the coordination and rate vectors and the
per-species channel lists, then pad the channel lists into the fixed-width
`species_rxn_mapping` table. -/
def initialize_simulation (numEntries : Nat) (reactions : List Reaction)
    (ic : Nat → Int) : Except SimErr InitResult :=
  match compileRxns ic ⟨[], [], [], [], fun _ => []⟩ (withIds 0 reactions) with
  | .error e => .error e
  | .ok c =>
    let lengths := (List.range numEntries).map (fun s => (c.mapping s).length)
    let maxLen := lengths.foldl max 0
    .ok ⟨(List.range numEntries).map ic,
         (List.range numEntries).map (fun s => padRow maxLen (c.mapping s)),
         c.reactantRows, c.productRows, c.coord, c.rates⟩

/-- The runtime coordination refresh `get_coordination` (lines 265-303).
The consuming-side row is read whole, so the state is looked up at both
slots, including a `-1` sentinel slot (Python negative indexing reads the
last entry); `none` models the `RuntimeError` for unsupported arity. -/
def get_coordination (reactants products : List (Int × Int)) (state : List Int)
    (rxn_id : Nat) (reverse : Bool) : Option ℚ :=
  let ra := if reverse then products.getD rxn_id (-1, -1)
            else reactants.getD rxn_id (-1, -1)
  let num_reactants := (if ra.1 = -1 then 0 else 1) + (if ra.2 = -1 then 0 else 1)
  let m0 : Int := pyGet state ra.1
  let m1 : Int := pyGet state ra.2
  if num_reactants = 1 then some ((m0 : ℚ))
  else if num_reactants = 2 ∧ ra.1 = ra.2 then
    some ((m0 : ℚ) * ((m0 : ℚ) - 1) / 2)
  else if num_reactants = 2 ∧ ra.1 ≠ ra.2 then
    some ((m0 : ℚ) * (m1 : ℚ))
  else none

/-- Errors of `update_state`: the guard `rxn_ind == -1` (line 235) and the
`ValueError("State invalid! Negative specie ...")` (lines 243, 256), whose
payload is the array contents at the moment of the raise. -/
inductive UpdateErr where
  | incorrectIndex
  | negativeCount (errState : List Int)
deriving DecidableEq

/-- One consuming-side slot of `update_state`: skip the sentinel, otherwise
decrement in place and raise if the entry went negative. -/
def consumeOne (state : List Int) (rid : Int) : Except UpdateErr (List Int) :=
  if rid = -1 then .ok state
  else
    let s2 := pySet state rid (pyGet state rid - 1)
    if pyGet s2 rid < 0 then .error (.negativeCount s2) else .ok s2

/-- One producing-side slot of `update_state`: skip the sentinel, otherwise
increment in place (no check). -/
def produceOne (state : List Int) (pid : Int) : List Int :=
  if pid = -1 then state else pySet state pid (pyGet state pid + 1)

/-- Consuming-side row of a reaction: the products row when the reverse
channel fires, the reactants row otherwise. -/
def consRow (reactants products : List (Int × Int)) (rxn_ind : Int)
    (reverse : Bool) : Int × Int :=
  if reverse then pyRow products rxn_ind else pyRow reactants rxn_ind

/-- Producing-side row of a reaction: the reactants row when the reverse
channel fires, the products row otherwise. -/
def prodRow (reactants products : List (Int × Int)) (rxn_ind : Int)
    (reverse : Bool) : Int × Int :=
  if reverse then pyRow reactants rxn_ind else pyRow products rxn_ind

/-- Core of `update_state`: both consuming slots in order (checked decrement),
then both producing slots in order (unchecked increment). -/
def updateCore (cons prod : Int × Int) (state : List Int) :
    Except UpdateErr (List Int) :=
  match consumeOne state cons.1 with
  | .error e => .error e
  | .ok s1 =>
    match consumeOne s1 cons.2 with
    | .error e => .error e
    | .ok s2 => .ok (produceOne (produceOne s2 prod.1) prod.2)

/-- The state updater `update_state` (lines 224-263): on the consuming side
(products if `reverse`, reactants otherwise) decrement each non-sentinel slot
with the negativity check, then increment each non-sentinel producing slot. -/
def update_state (reactants products : List (Int × Int)) (state : List Int)
    (rxn_ind : Int) (reverse : Bool) : Except UpdateErr (List Int) :=
  if rxn_ind = -1 then .error .incorrectIndex
  else
    updateCore (consRow reactants products rxn_ind reverse)
      (prodRow reactants products rxn_ind reverse) state

/-- Running cumulative sums starting from `acc` (model of `np.cumsum`). -/
def cumsumAux (acc : ℚ) : List ℚ → List ℚ
  | [] => []
  | x :: xs => (acc + x) :: cumsumAux (acc + x) xs

/-- Model of `np.cumsum` on a rational vector. -/
def cumsum (l : List ℚ) : List ℚ := cumsumAux 0 l

/-- Index of the first entry satisfying `p` (model of `np.where(...)[0][0]`);
`none` models the `IndexError` on an empty selection. -/
def firstTrue (p : ℚ → Bool) : List ℚ → Option Nat
  | [] => none
  | x :: xs => if p x then some 0 else (firstTrue p xs).map (fun j => j + 1)

/-- The relevant-channel cache `np.where(propensity_array > 0)[0]`
(lines 154 and 198): ascending indices of strictly positive propensity. -/
def relevantInd (prop : List ℚ) : List Nat :=
  (List.range prop.length).filter (fun c => decide (0 < prop.getD c 0))

/-- The event selection of `simulate` (lines 161-162): first position of the
cumulative sum over `propensity_array[relevant_ind]` reaching the target,
mapped back through `relevant_ind`. -/
def selectChannel (prop : List ℚ) (relevant : List Nat) (target : ℚ) : Option Nat :=
  match firstTrue (fun x => decide (target ≤ x))
      (cumsum (relevant.map (fun c => prop.getD c 0))) with
  | none => none
  | some j => relevant.get? j

/-- The cached total propensity as the loop recomputes it (line 200):
`np.sum(propensity_array[relevant_ind])`, a sum over only the strictly
positive entries. -/
def totalPropensity (prop : List ℚ) : ℚ :=
  ((relevantInd prop).map (fun c => prop.getD c 0)).sum

/-- Full resum of the whole propensity vector (the driver's line 424 and the
specification's reference total). -/
def fullTotal (prop : List ℚ) : ℚ := prop.sum

/-- The waiting-time formula of line 158: `tau = -np.log(r1) / total_propensity`.
This is the one non-executable definition: real logarithms have no code. -/
noncomputable def stepTau (r1 a0 : ℝ) : ℝ := -Real.log r1 / a0

/-- Modelled from the spec (section 4.4): scanning the relevant channel list
in ascending order with a running accumulator, pick the first channel at
which the accumulated propensity reaches the target. -/
def specScanAux (prop : List ℚ) (target acc : ℚ) : List Nat → Option Nat
  | [] => none
  | c :: rest =>
    if target ≤ acc + prop.getD c 0 then some c
    else specScanAux prop target (acc + prop.getD c 0) rest

/-- Modelled from the spec (section 4.4): the event selection described by the
specification, to be compared with `selectChannel`. -/
def specSelect (prop : List ℚ) (target : ℚ) : Option Nat :=
  specScanAux prop target 0 (relevantInd prop)

/-- Specification-side description of the per-species channel list: reading
the reactions in order with ids from `k`, species `s` contributes channel
`2*id` once per occurrence among the reactants and `2*id + 1` once per
occurrence among the products. -/
def touchListFrom (k : Nat) (s : Nat) : List Reaction → List Int
  | [] => []
  | r :: rs =>
    List.replicate (r.reactants.count s) (2 * (k : Int)) ++
      List.replicate (r.products.count s) (2 * (k : Int) + 1) ++
      touchListFrom (k + 1) s rs

/-- Specification-side channel list of species `s` over a whole network. -/
def touchList (reactions : List Reaction) (s : Nat) : List Int :=
  touchListFrom 0 s reactions

/-- Collection of the channels to refresh after a firing (lines 173-184):
extend with the mapping row of every non-sentinel reactant id, then of every
non-sentinel product id of the fired reaction. -/
def collectChanges (mapping : List (List Int)) (rrow prow : Int × Int) : List Int :=
  let f := fun (acc : List Int) (rid : Int) =>
    if rid = -1 then acc else acc ++ mapping.getD rid.toNat []
  f (f (f (f [] rrow.1) rrow.2) prow.1) prow.2

/-- The refresh loop over the changed channels (lines 186-194): skip the `-1`
padding entries, recompute each remaining channel's coordination number and
store it; `none` propagates the `RuntimeError` of `get_coordination`. -/
def refreshCoords (reactants products : List (Int × Int)) (state : List Int)
    (coord : List ℚ) : List Int → Option (List ℚ)
  | [] => some coord
  | rxn_ind :: rest =>
    if rxn_ind = -1 then refreshCoords reactants products state coord rest
    else
      match get_coordination reactants products state (rxn_ind.toNat / 2)
          (decide (rxn_ind % 2 = 1)) with
      | none => none
      | some h =>
        refreshCoords reactants products state (coord.set rxn_ind.toNat h) rest

/-- Well-formedness of one slot of a 2-column row with respect to a state of
the given length: either the `-1` sentinel or an in-range species index. -/
def slotOk (len : Nat) (c : Int) : Prop :=
  c = -1 ∨ (0 ≤ c ∧ c.toNat < len)

instance slotOkDec (len : Nat) (c : Int) : Decidable (slotOk len c) := by
  unfold slotOk; infer_instance

instance exceptDecEq {ε α : Type _} [DecidableEq ε] [DecidableEq α] :
    DecidableEq (Except ε α) := fun a b =>
  match a, b with
  | .error e1, .error e2 =>
    if h : e1 = e2 then .isTrue (by rw [h])
    else .isFalse (fun hx => h (Except.error.inj hx))
  | .error _, .ok _ => .isFalse (fun hx => Except.noConfusion hx)
  | .ok _, .error _ => .isFalse (fun hx => Except.noConfusion hx)
  | .ok a1, .ok a2 =>
    if h : a1 = a2 then .isTrue (by rw [h])
    else .isFalse (fun hx => h (Except.ok.inj hx))

/-- Multiplicity of species index `i` in a 2-column row (the sentinel `-1`
never matches a species index). -/
def mult (row : Int × Int) (i : Int) : Int :=
  (if row.1 = i then 1 else 0) + (if row.2 = i then 1 else 0)

/-- Proof-side description of one in-place slot operation: identity on the
sentinel, otherwise add `d` to the entry at the slot. -/
def bump (l : List Int) (c : Int) (d : Int) : List Int :=
  if c = -1 then l else l.set c.toNat (l.getD c.toNat 0 + d)

/-- Errors of one loop iteration of `simulate`. -/
inductive StepErr where
  | emptySelection
  | updateFailed (e : UpdateErr)
  | coordFailed
deriving DecidableEq

/-- Outcome of one loop iteration of `simulate`: the fired channel and the
refreshed caches. -/
structure StepResult where
  choice : Nat
  state : List Int
  coord : List ℚ
  prop : List ℚ
  a0 : ℚ
  relevant : List Nat
deriving DecidableEq

/-- One iteration of the loop of `simulate` (lines 155-203), with the two
random draws replaced by the selection target factor `r2` (the waiting time,
which does not influence the state evolution, is `stepTau`): select a channel,
update the state, recompute the affected coordination numbers, then rebuild
the propensity vector and the `relevant` and total-propensity caches. -/
def stepOnce (reactantRows productRows : List (Int × Int))
    (mapping : List (List Int)) (coord rates prop : List ℚ) (a0 : ℚ)
    (relevant : List Nat) (state : List Int) (r2 : ℚ) :
    Except StepErr StepResult :=
  let target := r2 * a0
  match selectChannel prop relevant target with
  | none => .error .emptySelection
  | some rc =>
    let conv : Nat := rc / 2
    let rev : Bool := decide (rc % 2 = 1)
    match update_state reactantRows productRows state (conv : Int) rev with
    | .error e => .error (.updateFailed e)
    | .ok state2 =>
      let rrow := pyRow reactantRows (conv : Int)
      let prow := pyRow productRows (conv : Int)
      let changes := (collectChanges mapping rrow prow).dedup
      match refreshCoords reactantRows productRows state2 coord changes with
      | none => .error .coordFailed
      | some coord2 =>
        let prop2 := List.zipWith (fun a b => a * b) rates coord2
        .ok ⟨rc, state2, coord2, prop2, totalPropensity prop2, relevantInd prop2⟩

/-- Network of the concrete scenario of the specification: two species
`A = 0`, `B = 1`, one reversible reaction `A ⇌ B` with unit rate constants. -/
def net2 : List Reaction := [⟨[0], [1], 1, 1⟩]

/-- Initial counts of the concrete scenario: `A = 100`, `B = 0`. -/
def ic2 : Nat → Int := fun s => if s = 0 then 100 else 0

/-- One-reaction network whose reactant side holds two identical species. -/
def netPair : List Reaction := [⟨[0, 0], [1], 1, 1⟩]

/-- Initial counts putting `n` molecules of species 0 and none of species 1. -/
def icPair (n : Int) : Nat → Int := fun s => if s = 0 then n else 0

/-- One-reaction network whose reactant side has three species. -/
def netTriple : List Reaction := [⟨[0, 0, 0], [1], 1, 1⟩]

section Helpers

theorem getD_set_self (l : List Int) (i : Nat) (v : Int) (h : i < l.length) :
    (l.set i v).getD i 0 = v := by
  simp [List.getD_eq_getElem?_getD, List.getElem?_set_self h]

theorem getD_set_ne (l : List Int) {i j : Nat} (v : Int) (h : i ≠ j) :
    (l.set i v).getD j 0 = l.getD j 0 := by
  simp [List.getD_eq_getElem?_getD, List.getElem?_set_ne h]

theorem pyIdx_nonneg (len : Nat) {c : Int} (h : 0 ≤ c) : pyIdx len c = c.toNat := by
  simp [pyIdx, h]

theorem pyGet_nonneg (l : List Int) {c : Int} (h : 0 ≤ c) :
    pyGet l c = l.getD c.toNat 0 := by
  simp [pyGet, pyIdx_nonneg _ h]

theorem pySet_nonneg (l : List Int) {c : Int} (v : Int) (h : 0 ≤ c) :
    pySet l c v = l.set c.toNat v := by
  simp [pySet, pyIdx_nonneg _ h]

theorem pyGet_natCast (l : List Int) (i : Nat) : pyGet l (i : Int) = l.getD i 0 := by
  rw [pyGet_nonneg l (Int.natCast_nonneg i), Int.toNat_natCast]

theorem bump_length (l : List Int) (c d : Int) : (bump l c d).length = l.length := by
  unfold bump; split <;> simp

theorem bump_getD (l : List Int) {c : Int} (d : Int) (hok : slotOk l.length c)
    (i : Nat) (hi : i < l.length) :
    (bump l c d).getD i 0 = l.getD i 0 + (if c = (i : Int) then d else 0) := by
  rcases hok with hc | ⟨h0, hlen⟩
  · have hne : (-1 : Int) ≠ (i : Int) := by omega
    subst hc
    simp [bump, hne]
  · have hne : c ≠ -1 := by omega
    by_cases he : c = (i : Int)
    · have ht : c.toNat = i := by omega
      rw [if_pos he]
      simp only [bump, if_neg hne, ht]
      rw [getD_set_self _ _ _ hi]
    · have ht : c.toNat ≠ i := by omega
      rw [if_neg he]
      simp only [bump, if_neg hne]
      rw [getD_set_ne _ _ ht, add_zero]

theorem consumeOne_sentinel (l : List Int) : consumeOne l (-1) = .ok l := by
  simp [consumeOne]

theorem consumeOne_eq (l : List Int) {c : Int} (h0 : 0 ≤ c)
    (hlen : c.toNat < l.length) :
    consumeOne l c =
      if l.getD c.toNat 0 ≤ 0 then .error (.negativeCount (bump l c (-1)))
      else .ok (bump l c (-1)) := by
  have hne : c ≠ -1 := by omega
  have hb : pySet l c (pyGet l c - 1) = bump l c (-1) := by
    rw [pySet_nonneg _ _ h0, pyGet_nonneg _ h0]
    simp [bump, hne, Int.sub_eq_add_neg]
  simp only [consumeOne, if_neg hne, hb]
  rw [pyGet_nonneg _ h0]
  have hceq : c = (c.toNat : Int) := by omega
  rw [bump_getD l (-1) (Or.inr ⟨h0, hlen⟩) c.toNat hlen, if_pos hceq]
  split_ifs with h1 h2 h2 <;> first | rfl | omega

theorem produceOne_eq (l : List Int) {p : Int} (h : p = -1 ∨ 0 ≤ p) :
    produceOne l p = bump l p 1 := by
  rcases h with h | h
  · subst h; simp [produceOne, bump]
  · have hne : p ≠ -1 := by omega
    simp [produceOne, bump, hne, pySet_nonneg _ _ h, pyGet_nonneg _ h]

theorem updateCore_eq (cons prod : Int × Int) (state : List Int)
    (hc1 : slotOk state.length cons.1) (hc2 : slotOk state.length cons.2) :
    updateCore cons prod state =
      if cons.1 ≠ -1 ∧ pyGet state cons.1 ≤ 0 then
        .error (.negativeCount (bump state cons.1 (-1)))
      else if cons.2 ≠ -1 ∧ pyGet (bump state cons.1 (-1)) cons.2 ≤ 0 then
        .error (.negativeCount (bump (bump state cons.1 (-1)) cons.2 (-1)))
      else
        .ok (produceOne (produceOne (bump (bump state cons.1 (-1)) cons.2 (-1))
          prod.1) prod.2) := by
  have hbS : ∀ s : List Int, bump s (-1) (-1) = s := fun s => by simp [bump]
  rcases hc1 with h1 | ⟨h10, h1len⟩
  · have e1 : consumeOne state cons.1 = .ok state := by
      rw [h1]; exact consumeOne_sentinel state
    have hC1 : ¬(cons.1 ≠ -1 ∧ pyGet state cons.1 ≤ 0) := by rw [h1]; simp
    have hb1 : bump state cons.1 (-1) = state := by rw [h1, hbS]
    rcases hc2 with h2 | ⟨h20, h2len⟩
    · have e2 : consumeOne state cons.2 = .ok state := by
        rw [h2]; exact consumeOne_sentinel state
      have hC2 : ¬(cons.2 ≠ -1 ∧ pyGet (bump state cons.1 (-1)) cons.2 ≤ 0) := by
        rw [h2]; simp
      have hb2 : bump (bump state cons.1 (-1)) cons.2 (-1) = state := by
        rw [hb1, h2, hbS]
      simp only [updateCore, e1, e2]
      rw [if_neg hC1, if_neg hC2, hb2]
    · have hne2 : cons.2 ≠ -1 := by omega
      have hpg2 : pyGet (bump state cons.1 (-1)) cons.2 = state.getD cons.2.toNat 0 := by
        rw [hb1, pyGet_nonneg _ h20]
      by_cases hv2 : state.getD cons.2.toNat 0 ≤ 0
      · have e2 : consumeOne state cons.2 =
            .error (.negativeCount (bump state cons.2 (-1))) := by
          rw [consumeOne_eq state h20 h2len, if_pos hv2]
        simp only [updateCore, e1, e2]
        rw [if_neg hC1, if_pos ⟨hne2, by rw [hpg2]; exact hv2⟩, hb1]
      · have e2 : consumeOne state cons.2 = .ok (bump state cons.2 (-1)) := by
          rw [consumeOne_eq state h20 h2len, if_neg hv2]
        have hC2 : ¬(cons.2 ≠ -1 ∧ pyGet (bump state cons.1 (-1)) cons.2 ≤ 0) := by
          intro hx; rw [hpg2] at hx; exact hv2 hx.2
        simp only [updateCore, e1, e2]
        rw [if_neg hC1, if_neg hC2, hb1]
  · have hne1 : cons.1 ≠ -1 := by omega
    have hpg1 : pyGet state cons.1 = state.getD cons.1.toNat 0 := pyGet_nonneg _ h10
    by_cases hv1 : state.getD cons.1.toNat 0 ≤ 0
    · have e1 : consumeOne state cons.1 =
          .error (.negativeCount (bump state cons.1 (-1))) := by
        rw [consumeOne_eq state h10 h1len, if_pos hv1]
      simp only [updateCore, e1]
      rw [if_pos ⟨hne1, by rw [hpg1]; exact hv1⟩]
    · have e1 : consumeOne state cons.1 = .ok (bump state cons.1 (-1)) := by
        rw [consumeOne_eq state h10 h1len, if_neg hv1]
      have hC1 : ¬(cons.1 ≠ -1 ∧ pyGet state cons.1 ≤ 0) := by
        intro hx; rw [hpg1] at hx; exact hv1 hx.2
      have hlen1 : (bump state cons.1 (-1)).length = state.length := bump_length _ _ _
      rcases hc2 with h2 | ⟨h20, h2len⟩
      · have e2 : consumeOne (bump state cons.1 (-1)) cons.2 =
            .ok (bump state cons.1 (-1)) := by
          rw [h2]; exact consumeOne_sentinel _
        have hC2 : ¬(cons.2 ≠ -1 ∧ pyGet (bump state cons.1 (-1)) cons.2 ≤ 0) := by
          rw [h2]; simp
        have hb2 : bump (bump state cons.1 (-1)) cons.2 (-1) =
            bump state cons.1 (-1) := by rw [h2, hbS]
        simp only [updateCore, e1, e2]
        rw [if_neg hC1, if_neg hC2, hb2]
      · have hne2 : cons.2 ≠ -1 := by omega
        have h2len' : cons.2.toNat < (bump state cons.1 (-1)).length := by
          rw [hlen1]; exact h2len
        have hpg2 : pyGet (bump state cons.1 (-1)) cons.2 =
            (bump state cons.1 (-1)).getD cons.2.toNat 0 := pyGet_nonneg _ h20
        by_cases hv2 : (bump state cons.1 (-1)).getD cons.2.toNat 0 ≤ 0
        · have e2 : consumeOne (bump state cons.1 (-1)) cons.2 =
              .error (.negativeCount (bump (bump state cons.1 (-1)) cons.2 (-1))) := by
            rw [consumeOne_eq _ h20 h2len', if_pos hv2]
          simp only [updateCore, e1, e2]
          rw [if_neg hC1, if_pos ⟨hne2, by rw [hpg2]; exact hv2⟩]
        · have e2 : consumeOne (bump state cons.1 (-1)) cons.2 =
              .ok (bump (bump state cons.1 (-1)) cons.2 (-1)) := by
            rw [consumeOne_eq _ h20 h2len', if_neg hv2]
          have hC2 : ¬(cons.2 ≠ -1 ∧ pyGet (bump state cons.1 (-1)) cons.2 ≤ 0) := by
            intro hx; rw [hpg2] at hx; exact hv2 hx.2
          simp only [updateCore, e1, e2]
          rw [if_neg hC1, if_neg hC2]

theorem slotOk_elim {len : Nat} {p : Int} (h : slotOk len p) : p = -1 ∨ 0 ≤ p :=
  h.imp id And.left

theorem update_state_eq_core (reactants products : List (Int × Int))
    (state : List Int) (rxn_ind : Int) (reverse : Bool) (hne : rxn_ind ≠ -1) :
    update_state reactants products state rxn_ind reverse =
      updateCore (consRow reactants products rxn_ind reverse)
        (prodRow reactants products rxn_ind reverse) state := by
  simp [update_state, hne]

theorem updateCore_analysis (cons prod : Int × Int) (state : List Int)
    (hc1 : slotOk state.length cons.1) (hc2 : slotOk state.length cons.2)
    (hp1 : slotOk state.length prod.1) (hp2 : slotOk state.length prod.2)
    (hnn : ∀ i, i < state.length → 0 ≤ state.getD i 0) :
    (∀ s2, updateCore cons prod state = .ok s2 →
      s2.length = state.length ∧
      (∀ i, i < state.length → 0 ≤ s2.getD i 0) ∧
      (∀ i, i < state.length →
        s2.getD i 0 = state.getD i 0 - mult cons (i : Int) + mult prod (i : Int))) ∧
    ((∃ es, updateCore cons prod state = .error (.negativeCount es)) ↔
      ∃ c : Int, c ≠ -1 ∧ (c = cons.1 ∨ c = cons.2) ∧
        pyGet state c < mult cons c) := by
  have hE := updateCore_eq cons prod state hc1 hc2
  have L1 : (bump state cons.1 (-1)).length = state.length := bump_length _ _ _
  have L2 : (bump (bump state cons.1 (-1)) cons.2 (-1)).length = state.length := by
    rw [bump_length, L1]
  have L3 : (bump (bump (bump state cons.1 (-1)) cons.2 (-1)) prod.1 1).length
      = state.length := by rw [bump_length, L2]
  have hvalid : ∀ c : Int, slotOk state.length c → c ≠ -1 →
      0 ≤ c ∧ c.toNat < state.length := by
    intro c hok hne
    rcases hok with h | h
    · exact absurd h hne
    · exact h
  have hbump_get : ∀ c : Int, 0 ≤ c → c.toNat < state.length →
      pyGet (bump state cons.1 (-1)) c
        = pyGet state c + (if cons.1 = c then -1 else 0) := by
    intro c h0 hlen
    have hcast : ((c.toNat : Nat) : Int) = c := by omega
    rw [pyGet_nonneg (bump state cons.1 (-1)) h0, pyGet_nonneg state h0,
      bump_getD state (-1) hc1 c.toNat hlen, hcast]
  have hval : produceOne (produceOne (bump (bump state cons.1 (-1)) cons.2 (-1))
        prod.1) prod.2
      = bump (bump (bump (bump state cons.1 (-1)) cons.2 (-1)) prod.1 1) prod.2 1 := by
    rw [produceOne_eq _ (slotOk_elim hp1), produceOne_eq _ (slotOk_elim hp2)]
  have key : ∀ i, i < state.length →
      (bump (bump (bump (bump state cons.1 (-1)) cons.2 (-1)) prod.1 1) prod.2 1).getD i 0
        = state.getD i 0 + (if cons.1 = (i : Int) then -1 else 0)
          + (if cons.2 = (i : Int) then -1 else 0)
          + (if prod.1 = (i : Int) then 1 else 0)
          + (if prod.2 = (i : Int) then 1 else 0) := by
    intro i hi
    rw [bump_getD _ 1 (by rw [L3]; exact hp2) i (by rw [L3]; exact hi),
      bump_getD _ 1 (by rw [L2]; exact hp1) i (by rw [L2]; exact hi),
      bump_getD _ (-1) (by rw [L1]; exact hc2) i (by rw [L1]; exact hi),
      bump_getD _ (-1) hc1 i hi]
  constructor
  · intro s2 hs2
    rw [hE] at hs2
    by_cases hC1 : cons.1 ≠ -1 ∧ pyGet state cons.1 ≤ 0
    · rw [if_pos hC1] at hs2; exact absurd hs2 (by simp)
    · rw [if_neg hC1] at hs2
      by_cases hC2 : cons.2 ≠ -1 ∧ pyGet (bump state cons.1 (-1)) cons.2 ≤ 0
      · rw [if_pos hC2] at hs2; exact absurd hs2 (by simp)
      · rw [if_neg hC2, hval] at hs2
        have hs2v := (Except.ok.inj hs2).symm
        subst hs2v
        refine ⟨?_, ?_, ?_⟩
        · rw [bump_length, bump_length, bump_length, bump_length]
        · intro i hi
          rw [key i hi]
          have hia : (0 : Int) ≤ (i : Int) := Int.natCast_nonneg i
          have hq1 : (0:Int) ≤ (if prod.1 = (i : Int) then 1 else 0) := by
            split_ifs <;> omega
          have hq2 : (0:Int) ≤ (if prod.2 = (i : Int) then 1 else 0) := by
            split_ifs <;> omega
          by_cases ha : cons.1 = (i : Int) <;> by_cases hb : cons.2 = (i : Int)
          · have hane : cons.1 ≠ -1 := by omega
            have hbne : cons.2 ≠ -1 := by omega
            have h1p : ¬ pyGet state cons.1 ≤ 0 := fun h => hC1 ⟨hane, h⟩
            have h2p : ¬ pyGet (bump state cons.1 (-1)) cons.2 ≤ 0 :=
              fun h => hC2 ⟨hbne, h⟩
            have ht2 : cons.2.toNat = i := by omega
            have hpg2 : pyGet state cons.2 = state.getD i 0 := by
              rw [pyGet_nonneg state (by omega), ht2]
            rw [hbump_get cons.2 (by omega) (by omega), hpg2,
              if_pos (by omega : cons.1 = cons.2)] at h2p
            simp only [if_pos ha, if_pos hb]
            omega
          · have hane : cons.1 ≠ -1 := by omega
            have h1p : ¬ pyGet state cons.1 ≤ 0 := fun h => hC1 ⟨hane, h⟩
            have ht1 : cons.1.toNat = i := by omega
            rw [pyGet_nonneg state (by omega), ht1] at h1p
            simp only [if_pos ha, if_neg hb]
            omega
          · have hbne : cons.2 ≠ -1 := by omega
            have h2p : ¬ pyGet (bump state cons.1 (-1)) cons.2 ≤ 0 :=
              fun h => hC2 ⟨hbne, h⟩
            have ht2 : cons.2.toNat = i := by omega
            have hpg2 : pyGet state cons.2 = state.getD i 0 := by
              rw [pyGet_nonneg state (by omega), ht2]
            rw [hbump_get cons.2 (by omega) (by omega), hpg2,
              if_neg (by omega : ¬ cons.1 = cons.2)] at h2p
            simp only [if_neg ha, if_pos hb]
            omega
          · have h0 := hnn i hi
            simp only [if_neg ha, if_neg hb]
            omega
        · intro i hi
          rw [key i hi]
          simp only [mult]
          split_ifs <;> omega
  · rw [hE]
    constructor
    · rintro ⟨es, hes⟩
      by_cases hC1 : cons.1 ≠ -1 ∧ pyGet state cons.1 ≤ 0
      · refine ⟨cons.1, hC1.1, Or.inl rfl, ?_⟩
        have hm : (1:Int) ≤ mult cons cons.1 := by
          simp only [mult]
          split_ifs <;> omega
        have := hC1.2
        omega
      · rw [if_neg hC1] at hes
        by_cases hC2 : cons.2 ≠ -1 ∧ pyGet (bump state cons.1 (-1)) cons.2 ≤ 0
        · refine ⟨cons.2, hC2.1, Or.inr rfl, ?_⟩
          obtain ⟨hbne, hble⟩ := hC2
          obtain ⟨h20, h2len⟩ := hvalid cons.2 hc2 hbne
          rw [hbump_get cons.2 h20 h2len] at hble
          have hm : mult cons cons.2
              = (if cons.1 = cons.2 then 1 else 0) + 1 := by
            simp [mult]
          rw [hm, pyGet_nonneg state h20]
          rw [pyGet_nonneg state h20] at hble
          by_cases hcc : cons.1 = cons.2
          · rw [if_pos hcc] at hble ⊢
            omega
          · rw [if_neg hcc] at hble ⊢
            omega
        · rw [if_neg hC2] at hes
          exact absurd hes (by simp)
    · rintro ⟨c, hcne, hcor, hclt⟩
      by_cases hC1 : cons.1 ≠ -1 ∧ pyGet state cons.1 ≤ 0
      · exact ⟨_, by rw [if_pos hC1]⟩
      · have hC2 : cons.2 ≠ -1 ∧ pyGet (bump state cons.1 (-1)) cons.2 ≤ 0 := by
          rcases hcor with rfl | rfl
          · obtain ⟨h10, h1len⟩ := hvalid cons.1 hc1 hcne
            have h1p : ¬ pyGet state cons.1 ≤ 0 := fun h => hC1 ⟨hcne, h⟩
            have hm : mult cons cons.1 = 1 + (if cons.2 = cons.1 then 1 else 0) := by
              simp [mult]
            rw [hm] at hclt
            by_cases hcc : cons.2 = cons.1
            · rw [if_pos hcc] at hclt
              refine ⟨by rw [hcc]; exact hcne, ?_⟩
              rw [hcc, hbump_get cons.1 h10 h1len, if_pos rfl]
              omega
            · rw [if_neg hcc] at hclt
              exfalso
              omega
          · obtain ⟨h20, h2len⟩ := hvalid cons.2 hc2 hcne
            have hm : mult cons cons.2 = (if cons.1 = cons.2 then 1 else 0) + 1 := by
              simp [mult]
            rw [hm] at hclt
            refine ⟨hcne, ?_⟩
            rw [hbump_get cons.2 h20 h2len]
            by_cases hcc : cons.1 = cons.2
            · have h1p : ¬ pyGet state cons.1 ≤ 0 :=
                fun h => hC1 ⟨by rw [hcc]; exact hcne, h⟩
              rw [hcc] at h1p
              rw [if_pos hcc] at hclt ⊢
              omega
            · rw [if_neg hcc] at hclt ⊢
              omega
        exact ⟨_, by rw [if_neg hC1, if_pos hC2]⟩

end Helpers

/-- C4: for every channel (a nonnegative reaction index, with well-formed row
slots) and every population array of nonnegative counts, if `update_state`
returns without error then every species count in the returned state is
nonnegative and equals the exact net stoichiometric update of the input (so
no count is silently clamped at zero), and the state-invariant error is
raised if and only if some decrement on the consuming side would drive a
species count negative. -/
theorem C4_update_state_safety
    (reactants products : List (Int × Int)) (state : List Int)
    (rxn_ind : Int) (reverse : Bool)
    (hr : 0 ≤ rxn_ind)
    (hc1 : slotOk state.length (consRow reactants products rxn_ind reverse).1)
    (hc2 : slotOk state.length (consRow reactants products rxn_ind reverse).2)
    (hp1 : slotOk state.length (prodRow reactants products rxn_ind reverse).1)
    (hp2 : slotOk state.length (prodRow reactants products rxn_ind reverse).2)
    (hnn : ∀ i, i < state.length → 0 ≤ state.getD i 0) :
    (∀ s2, update_state reactants products state rxn_ind reverse = .ok s2 →
      s2.length = state.length ∧
      (∀ i, i < state.length → 0 ≤ s2.getD i 0) ∧
      (∀ i, i < state.length →
        s2.getD i 0 = state.getD i 0
          - mult (consRow reactants products rxn_ind reverse) (i : Int)
          + mult (prodRow reactants products rxn_ind reverse) (i : Int))) ∧
    ((∃ es, update_state reactants products state rxn_ind reverse =
        .error (.negativeCount es)) ↔
      ∃ c : Int, c ≠ -1 ∧
        (c = (consRow reactants products rxn_ind reverse).1 ∨
          c = (consRow reactants products rxn_ind reverse).2) ∧
        pyGet state c < mult (consRow reactants products rxn_ind reverse) c) := by
  have hne : rxn_ind ≠ -1 := by omega
  rw [update_state_eq_core reactants products state rxn_ind reverse hne]
  exact updateCore_analysis _ _ state hc1 hc2 hp1 hp2 hnn

theorem C4_update_state_safety_witness :
    update_state [((0:Int), -1)] [((1:Int), -1)] [2, 3] 0 false = .ok [1, 4] ∧
    (0:Int) ≤ ([1, 4] : List Int).getD 0 0 ∧
    ([1, 4] : List Int).getD 0 0 = ([2, 3] : List Int).getD 0 0
      - mult (consRow [((0:Int), -1)] [((1:Int), -1)] 0 false) 0
      + mult (prodRow [((0:Int), -1)] [((1:Int), -1)] 0 false) 0 := by
  have h := C4_update_state_safety [((0:Int), -1)] [((1:Int), -1)] [2, 3] 0 false
    (by decide) (by decide) (by decide) (by decide) (by decide) (by decide)
  have h2 := h.1 [1, 4] (by decide)
  exact ⟨by decide, h2.2.1 0 (by decide), h2.2.2 0 (by decide)⟩

/-- C9: `update_state` is not atomic on error. Whenever both consuming slots
are real distinct species, the first has a positive count and the second a
nonpositive count, the raised state-invariant error happens only after the
first slot's decrement (and the offending decrement itself) have been applied
to the array, and neither is rolled back: the array carried by the error has
the first species at its old count minus one and the offending species
negative. -/
theorem C9_update_state_partial_mutation
    (reactants products : List (Int × Int)) (state : List Int)
    (rxn_ind : Int) (reverse : Bool)
    (hr : 0 ≤ rxn_ind)
    (h10 : 0 ≤ (consRow reactants products rxn_ind reverse).1)
    (h1len : (consRow reactants products rxn_ind reverse).1.toNat < state.length)
    (h20 : 0 ≤ (consRow reactants products rxn_ind reverse).2)
    (h2len : (consRow reactants products rxn_ind reverse).2.toNat < state.length)
    (hne12 : (consRow reactants products rxn_ind reverse).1 ≠
      (consRow reactants products rxn_ind reverse).2)
    (hval1 : 1 ≤ state.getD (consRow reactants products rxn_ind reverse).1.toNat 0)
    (hval2 : state.getD (consRow reactants products rxn_ind reverse).2.toNat 0 ≤ 0) :
    update_state reactants products state rxn_ind reverse
      = .error (.negativeCount
          (bump (bump state (consRow reactants products rxn_ind reverse).1 (-1))
            (consRow reactants products rxn_ind reverse).2 (-1))) ∧
    (bump (bump state (consRow reactants products rxn_ind reverse).1 (-1))
        (consRow reactants products rxn_ind reverse).2 (-1)).getD
        (consRow reactants products rxn_ind reverse).1.toNat 0
      = state.getD (consRow reactants products rxn_ind reverse).1.toNat 0 - 1 ∧
    (bump (bump state (consRow reactants products rxn_ind reverse).1 (-1))
        (consRow reactants products rxn_ind reverse).2 (-1)).getD
        (consRow reactants products rxn_ind reverse).2.toNat 0 < 0 := by
  have hne : rxn_ind ≠ -1 := by omega
  rw [update_state_eq_core reactants products state rxn_ind reverse hne]
  have hc1 : slotOk state.length (consRow reactants products rxn_ind reverse).1 :=
    Or.inr ⟨h10, h1len⟩
  have hc2 : slotOk state.length (consRow reactants products rxn_ind reverse).2 :=
    Or.inr ⟨h20, h2len⟩
  have hE := updateCore_eq (consRow reactants products rxn_ind reverse)
    (prodRow reactants products rxn_ind reverse) state hc1 hc2
  have L1 : (bump state (consRow reactants products rxn_ind reverse).1 (-1)).length
      = state.length := bump_length _ _ _
  have hcast1 : (((consRow reactants products rxn_ind reverse).1.toNat : Nat) : Int)
      = (consRow reactants products rxn_ind reverse).1 := by omega
  have hcast2 : (((consRow reactants products rxn_ind reverse).2.toNat : Nat) : Int)
      = (consRow reactants products rxn_ind reverse).2 := by omega
  have hg1 : pyGet state (consRow reactants products rxn_ind reverse).1
      = state.getD (consRow reactants products rxn_ind reverse).1.toNat 0 :=
    pyGet_nonneg state h10
  have hC1 : ¬((consRow reactants products rxn_ind reverse).1 ≠ -1 ∧
      pyGet state (consRow reactants products rxn_ind reverse).1 ≤ 0) := by
    intro hx
    rw [hg1] at hx
    omega
  have hb1get : (bump state (consRow reactants products rxn_ind reverse).1 (-1)).getD
      (consRow reactants products rxn_ind reverse).2.toNat 0
      = state.getD (consRow reactants products rxn_ind reverse).2.toNat 0 := by
    rw [bump_getD state (-1) hc1 _ h2len, hcast2,
      if_neg hne12, add_zero]
  have hg2 : pyGet (bump state (consRow reactants products rxn_ind reverse).1 (-1))
      (consRow reactants products rxn_ind reverse).2
      = state.getD (consRow reactants products rxn_ind reverse).2.toNat 0 := by
    rw [pyGet_nonneg _ h20, hb1get]
  have hC2 : (consRow reactants products rxn_ind reverse).2 ≠ -1 ∧
      pyGet (bump state (consRow reactants products rxn_ind reverse).1 (-1))
        (consRow reactants products rxn_ind reverse).2 ≤ 0 := by
    refine ⟨by omega, ?_⟩
    rw [hg2]
    exact hval2
  refine ⟨by rw [hE, if_neg hC1, if_pos hC2], ?_, ?_⟩
  · have h2len' : (consRow reactants products rxn_ind reverse).1.toNat <
        (bump state (consRow reactants products rxn_ind reverse).1 (-1)).length := by
      rw [L1]; exact h1len
    rw [bump_getD _ (-1) (by rw [L1]; exact hc2) _ h2len', hcast1,
      if_neg (fun h => hne12 h.symm), add_zero,
      bump_getD state (-1) hc1 _ h1len, hcast1, if_pos rfl]
    ring
  · have h2len' : (consRow reactants products rxn_ind reverse).2.toNat <
        (bump state (consRow reactants products rxn_ind reverse).1 (-1)).length := by
      rw [L1]; exact h2len
    rw [bump_getD _ (-1) (by rw [L1]; exact hc2) _ h2len', hcast2, if_pos rfl,
      hb1get]
    omega

/-- C1: on a reaction whose reactant side is two identical species with
count `n`, the network compiler stores the coordination number `n*(n-1)`
while the runtime refresh `get_coordination` computes `n*(n-1)/2`; for any
count `n ≥ 2` the compiled value is exactly twice the runtime value and the
two disagree. -/
theorem C1_identical_species_factor_mismatch (n : Int) (res : InitResult)
    (hres : initialize_simulation 2 netPair (icPair n) = .ok res) :
    res.coord.getD 0 0 = (n : ℚ) * ((n : ℚ) - 1) ∧
    get_coordination res.reactantRows res.productRows res.initialState 0 false
      = some ((n : ℚ) * ((n : ℚ) - 1) / 2) ∧
    (2 ≤ n →
      res.coord.getD 0 0
        = 2 * ((n : ℚ) * ((n : ℚ) - 1) / 2) ∧
      res.coord.getD 0 0 ≠ (n : ℚ) * ((n : ℚ) - 1) / 2) := by
  have hcomp : initialize_simulation 2 netPair (icPair n)
      = .ok ⟨[n, 0], [[0, 0], [1, -1]], [((0:Int), 0)], [((1:Int), -1)],
          [(n : ℚ) * ((n : ℚ) - 1), ((0:Int) : ℚ)], [1, 1]⟩ := rfl
  rw [hcomp] at hres
  obtain rfl := Except.ok.inj hres
  refine ⟨rfl, ?_, ?_⟩
  · simp only [get_coordination]
    norm_num [pyGet, pyIdx]
  · intro hn
    have hx : (2 : ℚ) ≤ (n : ℚ) := by exact_mod_cast hn
    have h1 : (1 : ℚ) ≤ (n : ℚ) - 1 := by linarith
    have h2 : (2 : ℚ) ≤ (n : ℚ) * ((n : ℚ) - 1) := by nlinarith
    constructor
    · show (n : ℚ) * ((n : ℚ) - 1) = 2 * ((n : ℚ) * ((n : ℚ) - 1) / 2)
      ring
    · show (n : ℚ) * ((n : ℚ) - 1) ≠ (n : ℚ) * ((n : ℚ) - 1) / 2
      intro habs
      linarith

theorem C1_identical_species_factor_mismatch_witness :
    (([((3:Int) : ℚ) * (((3:Int) : ℚ) - 1), ((0:Int) : ℚ)] : List ℚ).getD 0 0
      = ((3:Int) : ℚ) * (((3:Int) : ℚ) - 1)) ∧
    get_coordination [((0:Int), 0)] [((1:Int), -1)] [3, 0] 0 false
      = some (((3:Int) : ℚ) * (((3:Int) : ℚ) - 1) / 2) ∧
    ([((3:Int) : ℚ) * (((3:Int) : ℚ) - 1), ((0:Int) : ℚ)] : List ℚ).getD 0 0
      = 2 * (((3:Int) : ℚ) * (((3:Int) : ℚ) - 1) / 2) := by
  have h := C1_identical_species_factor_mismatch 3
    ⟨[3, 0], [[0, 0], [1, -1]], [((0:Int), 0)], [((1:Int), -1)],
      [((3:Int) : ℚ) * (((3:Int) : ℚ) - 1), ((0:Int) : ℚ)], [1, 1]⟩ rfl
  exact ⟨h.1, h.2.1, (h.2.2 (by decide)).1⟩

theorem select_scan_eq (prop : List ℚ) (target : ℚ) :
    ∀ (rel : List Nat) (acc : ℚ),
      (match firstTrue (fun x => decide (target ≤ x))
          (cumsumAux acc (rel.map fun c => prop.getD c 0)) with
        | none => none
        | some j => rel.get? j) = specScanAux prop target acc rel := by
  intro rel
  induction rel with
  | nil => intro acc; rfl
  | cons c cs ih =>
    intro acc
    simp only [List.map_cons, cumsumAux, firstTrue, specScanAux]
    by_cases h : target ≤ acc + prop.getD c 0
    · rw [if_pos (decide_eq_true h), if_pos h]
      rfl
    · rw [if_neg (by simpa using h), if_neg h]
      rw [← ih (acc + prop.getD c 0)]
      cases firstTrue (fun x => decide (target ≤ x))
          (cumsumAux (acc + prop.getD c 0) (cs.map fun c => prop.getD c 0)) with
      | none => rfl
      | some j => rfl

/-- C3: in every step, the recorded waiting time is `-ln(r1)/A0` for the
cached total propensity `A0`, and the fired channel is the first channel,
scanning the positive-propensity indices in ascending order, at which the
running cumulative propensity sum reaches `r2 * A0` (the code's
cumsum-and-first-index selection refines the specification's running scan). -/
theorem C3_step_waiting_time_and_selection :
    (∀ r1 a0 : ℝ, stepTau r1 a0 = -Real.log r1 / a0) ∧
    (∀ (prop : List ℚ) (target : ℚ),
      selectChannel prop (relevantInd prop) target = specSelect prop target) := by
  refine ⟨fun r1 a0 => rfl, fun prop target => ?_⟩
  exact select_scan_eq prop target (relevantInd prop) 0

/-- C7: whenever the cached total propensity (the sum over the strictly
positive propensity entries) is zero or negative at the start of a step, the
event selection produces no channel: the selection index lookup fails (the
run aborts) instead of yielding a channel or an arbitrary value. -/
theorem C7_degenerate_state_aborts (prop : List ℚ) (target : ℚ)
    (h : totalPropensity prop ≤ 0) :
    selectChannel prop (relevantInd prop) target = none := by
  have hrel : relevantInd prop = [] := by
    by_contra hne
    have hpos : ∀ x ∈ (relevantInd prop).map (fun c => prop.getD c 0), 0 < x := by
      intro x hx
      obtain ⟨c, hc, rfl⟩ := List.mem_map.mp hx
      exact of_decide_eq_true (List.mem_filter.mp hc).2
    have hsum : 0 < ((relevantInd prop).map (fun c => prop.getD c 0)).sum := by
      cases hl : (relevantInd prop).map (fun c => prop.getD c 0) with
      | nil => exact absurd (List.map_eq_nil.mp hl) hne
      | cons y ys =>
        rw [List.sum_cons]
        have hy : 0 < y := hpos y (by rw [hl]; exact List.mem_cons_self y ys)
        have hys : 0 ≤ ys.sum := List.sum_nonneg
          (fun x hx => le_of_lt (hpos x (by rw [hl]; exact List.mem_cons_of_mem y hx)))
        linarith
    rw [totalPropensity] at h
    linarith
  rw [hrel]
  rfl

theorem C7_degenerate_state_aborts_witness :
    totalPropensity [0] ≤ 0 ∧ selectChannel [0] (relevantInd [0]) 5 = none :=
  ⟨le_of_eq (by norm_num [totalPropensity, relevantInd, List.range_succ]),
    C7_degenerate_state_aborts [0] 5
      (le_of_eq (by norm_num [totalPropensity, relevantInd, List.range_succ]))⟩

theorem relevant_map_getD (l : List ℚ) :
    (relevantInd l).map (fun c => l.getD c 0) = l.filter (fun x => decide (0 < x)) := by
  induction l with
  | nil => rfl
  | cons x xs ih =>
    show List.map (fun c => (x :: xs).getD c 0)
        (List.filter (fun c => decide (0 < (x :: xs).getD c 0))
          (List.range (x :: xs).length))
      = (x :: xs).filter (fun y => decide (0 < y))
    rw [List.length_cons, List.range_succ_eq_map]
    have hmap : List.filter (fun c => decide (0 < (x :: xs).getD c 0))
        (List.map Nat.succ (List.range xs.length))
        = List.map Nat.succ
          (List.filter (fun c => decide (0 < xs.getD c 0)) (List.range xs.length)) := by
      rw [List.filter_map]
      have hfun : ((fun c => decide (0 < (x :: xs).getD c 0)) ∘ Nat.succ)
          = (fun c => decide (0 < xs.getD c 0)) := by
        funext c
        simp [Function.comp, List.getD_cons_succ]
      rw [hfun]
    have hcomp : List.map (fun c => (x :: xs).getD c 0) (List.map Nat.succ
        (List.filter (fun c => decide (0 < xs.getD c 0)) (List.range xs.length)))
        = List.map (fun c => xs.getD c 0)
            (List.filter (fun c => decide (0 < xs.getD c 0)) (List.range xs.length)) := by
      rw [List.map_map]
      have hfun : ((fun c => (x :: xs).getD c 0) ∘ Nat.succ)
          = (fun c => xs.getD c 0) := by
        funext c
        simp [Function.comp, List.getD_cons_succ]
      rw [hfun]
    simp only [List.filter_cons, List.getD_cons_zero]
    rw [hmap]
    by_cases hx : 0 < x
    · rw [if_pos (decide_eq_true hx), if_pos (decide_eq_true hx)]
      rw [List.map_cons, List.getD_cons_zero, hcomp]
      exact congrArg (List.cons x) ih
    · rw [if_neg (by simpa using hx), if_neg (by simpa using hx)]
      rw [hcomp]
      exact ih

theorem sum_filter_pos (l : List ℚ) (h : ∀ x ∈ l, 0 ≤ x) :
    (l.filter (fun x => decide (0 < x))).sum = l.sum := by
  induction l with
  | nil => rfl
  | cons x xs ih =>
    have hx0 : 0 ≤ x := h x (List.mem_cons_self x xs)
    have htl : ∀ y ∈ xs, 0 ≤ y := fun y hy => h y (List.mem_cons_of_mem x hy)
    rw [List.filter_cons, List.sum_cons]
    by_cases hx : 0 < x
    · rw [if_pos (decide_eq_true hx), List.sum_cons, ih htl]
    · have hz : x = 0 := le_antisymm (not_lt.mp hx) hx0
      rw [if_neg (by simpa using hx), ih htl, hz, zero_add]

theorem zipWith_mul_nonneg : ∀ (l1 l2 : List ℚ), (∀ x ∈ l1, 0 ≤ x) →
    (∀ x ∈ l2, 0 ≤ x) →
    ∀ x ∈ List.zipWith (fun a b => a * b) l1 l2, 0 ≤ x := by
  intro l1
  induction l1 with
  | nil => intro l2 _ _ x hx; simp at hx
  | cons a as ih =>
    intro l2 h1 h2 x hx
    cases l2 with
    | nil => simp at hx
    | cons b bs =>
      rw [List.zipWith_cons_cons] at hx
      rcases List.mem_cons.mp hx with rfl | hx2
      · exact mul_nonneg (h1 a (List.mem_cons_self a as))
          (h2 b (List.mem_cons_self b bs))
      · exact ih bs (fun y hy => h1 y (List.mem_cons_of_mem a hy))
          (fun y hy => h2 y (List.mem_cons_of_mem b hy)) x hx2

/-- C8: when every rate constant and every coordination number is
nonnegative, the cached total propensity that the refresh computes (a sum
over only the strictly positive propensity entries) equals the full resum of
the entire propensity vector exactly, hence within any floating tolerance. -/
theorem C8_cached_total_equals_full_resum (rates coord : List ℚ)
    (hr : ∀ x ∈ rates, 0 ≤ x) (hc : ∀ x ∈ coord, 0 ≤ x) :
    totalPropensity (List.zipWith (fun a b => a * b) rates coord)
      = fullTotal (List.zipWith (fun a b => a * b) rates coord) := by
  unfold totalPropensity fullTotal
  rw [relevant_map_getD]
  exact sum_filter_pos _ (zipWith_mul_nonneg rates coord hr hc)

theorem C8_cached_total_equals_full_resum_witness :
    totalPropensity (List.zipWith (fun a b => a * b) ([1, 0] : List ℚ) [2, 5])
      = fullTotal (List.zipWith (fun a b => a * b) ([1, 0] : List ℚ) [2, 5]) :=
  C8_cached_total_equals_full_resum [1, 0] [2, 5]
    (by intro x hx; fin_cases hx <;> norm_num)
    (by intro x hx; fin_cases hx <;> norm_num)

/-- C2: in the concrete two-species scenario `A = 100`, `B = 0` with one
reversible unit-rate reaction, the initial total propensity (the driver's
full sum of the propensity vector) is 100, and for any random draws
`r1, r2` in `[0,1)` the first step selects the forward channel 0 and leaves
the state `A = 99`, `B = 1`. -/
theorem C2_first_step_fires_forward (r1 r2 : ℚ)
    (h1a : 0 ≤ r1) (h1b : r1 < 1) (h2a : 0 ≤ r2) (h2b : r2 < 1)
    (res : InitResult) (hres : initialize_simulation 2 net2 ic2 = .ok res) :
    fullTotal (List.zipWith (fun a b => a * b) res.coord res.rates) = 100 ∧
    stepOnce res.reactantRows res.productRows res.mapping res.coord res.rates
      (List.zipWith (fun a b => a * b) res.coord res.rates)
      (fullTotal (List.zipWith (fun a b => a * b) res.coord res.rates))
      (relevantInd (List.zipWith (fun a b => a * b) res.coord res.rates))
      res.initialState r2
      = .ok ⟨0, [99, 1], [99, 1], [99, 1], 100, [0, 1]⟩ := by
  have hcomp : initialize_simulation 2 net2 ic2 = .ok ⟨[100, 0], [[0], [1]],
      [((0:Int), -1)], [((1:Int), -1)], [((100:Int):ℚ), ((0:Int):ℚ)], [1, 1]⟩ := rfl
  rw [hcomp] at hres
  obtain rfl := Except.ok.inj hres
  dsimp only
  have hprop : List.zipWith (fun a b => a * b)
      ([((100:Int):ℚ), ((0:Int):ℚ)] : List ℚ) ([1, 1] : List ℚ) = [100, 0] := by
    norm_num
  rw [hprop]
  have hF : fullTotal ([100, 0] : List ℚ) = 100 := by norm_num [fullTotal]
  have hRel : relevantInd ([100, 0] : List ℚ) = [0] := by
    norm_num [relevantInd, List.range_succ]
  rw [hF, hRel]
  refine ⟨rfl, ?_⟩
  have hle : r2 * 100 ≤ 100 := by nlinarith
  have hsel : selectChannel [100, 0] [0] (r2 * 100) = some 0 := by
    unfold selectChannel
    have hcs : cumsum (([0] : List Nat).map fun c => ([100, 0] : List ℚ).getD c 0)
        = [100] := by norm_num [cumsum, cumsumAux]
    rw [hcs]
    simp [firstTrue, hle]
  simp only [stepOnce]
  rw [hsel]
  have hupd : update_state [((0:Int), -1)] [((1:Int), -1)] [100, 0] 0 false
      = .ok [99, 1] := by decide
  have hchg : (collectChanges [[0], [1]] ((0:Int), -1) ((1:Int), -1)).dedup
      = [0, 1] := by decide
  have hrc : refreshCoords [((0:Int), -1)] [((1:Int), -1)] [99, 1]
      ([100, 0] : List ℚ) [0, 1] = some [99, 1] := by
    norm_num [refreshCoords, get_coordination, pyGet, pyIdx]
  have hprop2 : List.zipWith (fun a b => a * b) ([1, 1] : List ℚ)
      ([99, 1] : List ℚ) = [99, 1] := by norm_num
  have hTP : totalPropensity ([99, 1] : List ℚ) = 100 := by
    norm_num [totalPropensity, relevantInd, List.range_succ]
  have hRel2 : relevantInd ([99, 1] : List ℚ) = [0, 1] := by
    norm_num [relevantInd, List.range_succ]
  norm_num [pyRow, pyIdx, hupd, hchg]
  rw [hrc]
  norm_num [hprop2, hTP, hRel2]

theorem C2_first_step_fires_forward_witness :
    fullTotal (List.zipWith (fun a b => a * b)
      ([((100:Int):ℚ), ((0:Int):ℚ)] : List ℚ) ([1, 1] : List ℚ)) = 100 ∧
    stepOnce [((0:Int), -1)] [((1:Int), -1)] [[0], [1]]
      [((100:Int):ℚ), ((0:Int):ℚ)] [1, 1]
      (List.zipWith (fun a b => a * b)
        ([((100:Int):ℚ), ((0:Int):ℚ)] : List ℚ) ([1, 1] : List ℚ))
      (fullTotal (List.zipWith (fun a b => a * b)
        ([((100:Int):ℚ), ((0:Int):ℚ)] : List ℚ) ([1, 1] : List ℚ)))
      (relevantInd (List.zipWith (fun a b => a * b)
        ([((100:Int):ℚ), ((0:Int):ℚ)] : List ℚ) ([1, 1] : List ℚ)))
      [100, 0] 0
      = .ok ⟨0, [99, 1], [99, 1], [99, 1], 100, [0, 1]⟩ :=
  C2_first_step_fires_forward 0 0 (le_refl 0) zero_lt_one (le_refl 0) zero_lt_one
    ⟨[100, 0], [[0], [1]], [((0:Int), -1)], [((1:Int), -1)],
      [((100:Int):ℚ), ((0:Int):ℚ)], [1, 1]⟩ rfl

/-- C10: for a channel whose consuming row holds a single species in the
first slot and the sentinel in the second, `get_coordination` reads the state
at Python index `-1` (the last entry) for the absent slot, yet its result is
exactly the count of the present species, so any two states agreeing on that
species' count give equal results. -/
theorem C10_get_coordination_single_reactant
    (reactants products : List (Int × Int)) (state : List Int)
    (rxn_id : Nat) (s : Int)
    (hrow : reactants.getD rxn_id (-1, -1) = (s, -1))
    (h0 : 0 ≤ s) (hlen : s.toNat < state.length) :
    get_coordination reactants products state rxn_id false
      = some ((state.getD s.toNat 0 : ℚ)) ∧
    pyGet state (-1) = state.getD (state.length - 1) 0 ∧
    (∀ state2 : List Int, s.toNat < state2.length →
      state2.getD s.toNat 0 = state.getD s.toNat 0 →
      get_coordination reactants products state2 rxn_id false
        = get_coordination reactants products state rxn_id false) := by
  have hsne : s ≠ -1 := by omega
  have hkey : ∀ st : List Int,
      get_coordination reactants products st rxn_id false
        = some ((st.getD s.toNat 0 : ℚ)) := by
    intro st
    simp only [get_coordination, Bool.false_eq_true, if_false, hrow]
    simp [hsne, pyGet_nonneg st h0]
  refine ⟨hkey state, by simp [pyGet, pyIdx], ?_⟩
  intro state2 hl2 heq
  rw [hkey state2, hkey state, heq]

theorem C10_get_coordination_single_reactant_witness :
    get_coordination [((0:Int), -1)] [] [7, 9] 0 false
      = some ((([7, 9] : List Int).getD 0 0 : ℚ)) ∧
    pyGet [7, 9] (-1) = ([7, 9] : List Int).getD 1 0 := by
  have h := C10_get_coordination_single_reactant [((0:Int), -1)] [] [7, 9] 0 0
    (by decide) (by decide) (by decide)
  exact ⟨h.1, h.2.1⟩

theorem C9_update_state_partial_mutation_witness :
    update_state [((0:Int), 1)] [((2:Int), -1)] [5, 0, 7] 0 false
      = .error (.negativeCount
          (bump (bump [5, 0, 7] (consRow [((0:Int), 1)] [((2:Int), -1)] 0 false).1
            (-1)) (consRow [((0:Int), 1)] [((2:Int), -1)] 0 false).2 (-1))) ∧
    (bump (bump [5, 0, 7] (consRow [((0:Int), 1)] [((2:Int), -1)] 0 false).1 (-1))
        (consRow [((0:Int), 1)] [((2:Int), -1)] 0 false).2 (-1)).getD
        (consRow [((0:Int), 1)] [((2:Int), -1)] 0 false).1.toNat 0
      = ([5, 0, 7] : List Int).getD
          (consRow [((0:Int), 1)] [((2:Int), -1)] 0 false).1.toNat 0 - 1 ∧
    (bump (bump [5, 0, 7] (consRow [((0:Int), 1)] [((2:Int), -1)] 0 false).1 (-1))
        (consRow [((0:Int), 1)] [((2:Int), -1)] 0 false).2 (-1)).getD
        (consRow [((0:Int), 1)] [((2:Int), -1)] 0 false).2.toNat 0 < 0 :=
  C9_update_state_partial_mutation [((0:Int), 1)] [((2:Int), -1)] [5, 0, 7] 0 false
    (by decide) (by decide) (by decide) (by decide) (by decide) (by decide)
    (by decide) (by decide)

section ArityLemmas

theorem rowOfSide_long (side : List Nat) (h : 3 ≤ side.length) :
    rowOfSide side = .error .indexError := by
  rcases side with _ | ⟨a, _ | ⟨b, _ | ⟨c, t⟩⟩⟩
  · simp at h
  · simp at h
  · simp at h
  · rfl

theorem rowOfSide_short (side : List Nat) (h : side.length ≤ 2) :
    ∃ r, rowOfSide side = .ok r := by
  rcases side with _ | ⟨a, _ | ⟨b, _ | ⟨c, t⟩⟩⟩
  · exact ⟨_, rfl⟩
  · exact ⟨_, rfl⟩
  · exact ⟨_, rfl⟩
  · simp at h

theorem coordOfSide_good (ic : Nat → Int) (side : List Nat)
    (h : side.length = 1 ∨ side.length = 2) :
    ∃ q, coordOfSide ic side = .ok q := by
  rcases side with _ | ⟨a, _ | ⟨b, _ | ⟨c, t⟩⟩⟩
  · simp at h
  · exact ⟨((ic a : ℚ)), rfl⟩
  · by_cases hab : a = b
    · exact ⟨(ic a : ℚ) * ((ic a : ℚ) - 1), by simp only [coordOfSide, if_pos hab]⟩
    · exact ⟨(ic a : ℚ) * (ic b : ℚ), by simp only [coordOfSide, if_neg hab]⟩
  · simp at h

theorem coordOfSide_bad (ic : Nat → Int) (side : List Nat)
    (h1 : side.length ≠ 1) (h2 : side.length ≠ 2) :
    coordOfSide ic side = .error .validation := by
  rcases side with _ | ⟨a, _ | ⟨b, _ | ⟨c, t⟩⟩⟩
  · rfl
  · simp at h1
  · simp at h2
  · rfl

theorem processReaction_ok (ic : Nat → Int) (acc : CompileAcc) (idr : Nat × Reaction)
    (hgr : idr.2.reactants.length = 1 ∨ idr.2.reactants.length = 2)
    (hgp : idr.2.products.length = 1 ∨ idr.2.products.length = 2) :
    ∃ acc2, processReaction ic acc idr = .ok acc2 := by
  obtain ⟨r1, h1⟩ := rowOfSide_short idr.2.reactants (by omega)
  obtain ⟨r2, h2⟩ := rowOfSide_short idr.2.products (by omega)
  obtain ⟨q1, h3⟩ := coordOfSide_good ic idr.2.reactants hgr
  obtain ⟨q2, h4⟩ := coordOfSide_good ic idr.2.products hgp
  exact ⟨⟨acc.reactantRows ++ [r1], acc.productRows ++ [r2],
      acc.coord ++ [q1, q2], acc.rates ++ [idr.2.kA, idr.2.kB],
      updMap (updMap acc.mapping idr.2.reactants (2 * (idr.1 : Int)))
        idr.2.products (2 * (idr.1 : Int) + 1)⟩,
    by simp only [processReaction, h1, h2, h3, h4]⟩

theorem processReaction_err_reactants_long (ic : Nat → Int) (acc : CompileAcc)
    (idr : Nat × Reaction) (h : 3 ≤ idr.2.reactants.length) :
    processReaction ic acc idr = .error .indexError := by
  simp only [processReaction, rowOfSide_long _ h]

theorem processReaction_err_products_long (ic : Nat → Int) (acc : CompileAcc)
    (idr : Nat × Reaction) (hr : idr.2.reactants.length ≤ 2)
    (h : 3 ≤ idr.2.products.length) :
    processReaction ic acc idr = .error .indexError := by
  obtain ⟨r1, h1⟩ := rowOfSide_short idr.2.reactants hr
  simp only [processReaction, h1, rowOfSide_long _ h]

theorem processReaction_err_reactants_zero (ic : Nat → Int) (acc : CompileAcc)
    (idr : Nat × Reaction) (hr : idr.2.reactants.length = 0)
    (hp : idr.2.products.length ≤ 2) :
    processReaction ic acc idr = .error .validation := by
  obtain ⟨r1, h1⟩ := rowOfSide_short idr.2.reactants (by omega)
  obtain ⟨r2, h2⟩ := rowOfSide_short idr.2.products hp
  simp only [processReaction, h1, h2,
    coordOfSide_bad ic idr.2.reactants (by omega) (by omega)]

theorem processReaction_err_products_zero (ic : Nat → Int) (acc : CompileAcc)
    (idr : Nat × Reaction)
    (hgr : idr.2.reactants.length = 1 ∨ idr.2.reactants.length = 2)
    (hp : idr.2.products.length = 0) :
    processReaction ic acc idr = .error .validation := by
  obtain ⟨r1, h1⟩ := rowOfSide_short idr.2.reactants (by omega)
  obtain ⟨r2, h2⟩ := rowOfSide_short idr.2.products (by omega)
  obtain ⟨q1, h3⟩ := coordOfSide_good ic idr.2.reactants hgr
  simp only [processReaction, h1, h2, h3,
    coordOfSide_bad ic idr.2.products (by omega) (by omega)]

theorem processReaction_err_iff (ic : Nat → Int) (acc : CompileAcc)
    (idr : Nat × Reaction) :
    (∃ e, processReaction ic acc idr = .error e) ↔
      ¬((idr.2.reactants.length = 1 ∨ idr.2.reactants.length = 2) ∧
        (idr.2.products.length = 1 ∨ idr.2.products.length = 2)) := by
  constructor
  · rintro ⟨e, he⟩ hgood
    obtain ⟨acc2, hok⟩ := processReaction_ok ic acc idr hgood.1 hgood.2
    rw [hok] at he
    exact Except.noConfusion he
  · intro hbad
    by_cases h3r : 3 ≤ idr.2.reactants.length
    · exact ⟨_, processReaction_err_reactants_long ic acc idr h3r⟩
    · by_cases h3p : 3 ≤ idr.2.products.length
      · exact ⟨_, processReaction_err_products_long ic acc idr (by omega) h3p⟩
      · by_cases hr0 : idr.2.reactants.length = 0
        · exact ⟨_, processReaction_err_reactants_zero ic acc idr hr0 (by omega)⟩
        · by_cases hp0 : idr.2.products.length = 0
          · exact ⟨_, processReaction_err_products_zero ic acc idr (by omega) hp0⟩
          · exact absurd ⟨by omega, by omega⟩ hbad

theorem processReaction_validation_cases (ic : Nat → Int) (acc : CompileAcc)
    (idr : Nat × Reaction)
    (h : processReaction ic acc idr = .error .validation) :
    idr.2.reactants.length = 0 ∨ idr.2.products.length = 0 := by
  by_cases h3r : 3 ≤ idr.2.reactants.length
  · rw [processReaction_err_reactants_long ic acc idr h3r] at h
    simp at h
  · by_cases h3p : 3 ≤ idr.2.products.length
    · rw [processReaction_err_products_long ic acc idr (by omega) h3p] at h
      simp at h
    · by_cases hr0 : idr.2.reactants.length = 0
      · exact Or.inl hr0
      · by_cases hp0 : idr.2.products.length = 0
        · exact Or.inr hp0
        · obtain ⟨acc2, hok⟩ := processReaction_ok ic acc idr (by omega) (by omega)
          rw [hok] at h
          exact Except.noConfusion h

theorem compileRxns_err_iff (ic : Nat → Int) :
    ∀ (l : List (Nat × Reaction)) (acc : CompileAcc),
      (∃ e, compileRxns ic acc l = .error e) ↔
        ∃ idr ∈ l,
          ¬((idr.2.reactants.length = 1 ∨ idr.2.reactants.length = 2) ∧
            (idr.2.products.length = 1 ∨ idr.2.products.length = 2)) := by
  intro l
  induction l with
  | nil =>
    intro acc
    constructor
    · rintro ⟨e, he⟩
      exact Except.noConfusion he
    · rintro ⟨idr, hm, _⟩
      simp at hm
  | cons idr rest ih =>
    intro acc
    rcases hp : processReaction ic acc idr with e | acc2
    · constructor
      · intro _
        exact ⟨idr, List.mem_cons_self idr rest,
          (processReaction_err_iff ic acc idr).mp ⟨e, hp⟩⟩
      · intro _
        exact ⟨e, by simp only [compileRxns, hp]⟩
    · have hstep : compileRxns ic acc (idr :: rest) = compileRxns ic acc2 rest := by
        simp only [compileRxns, hp]
      rw [hstep]
      constructor
      · intro h
        obtain ⟨idr2, hm, hb⟩ := (ih acc2).mp h
        exact ⟨idr2, List.mem_cons_of_mem _ hm, hb⟩
      · rintro ⟨idr2, hm, hb⟩
        rcases List.mem_cons.mp hm with rfl | hm2
        · obtain ⟨e, he⟩ := (processReaction_err_iff ic acc idr2).mpr hb
          rw [hp] at he
          exact Except.noConfusion he
        · exact (ih acc2).mpr ⟨idr2, hm2, hb⟩

theorem compileRxns_validation (ic : Nat → Int) :
    ∀ (l : List (Nat × Reaction)) (acc : CompileAcc),
      compileRxns ic acc l = .error .validation →
      ∃ idr ∈ l, idr.2.reactants.length = 0 ∨ idr.2.products.length = 0 := by
  intro l
  induction l with
  | nil =>
    intro acc h
    exact Except.noConfusion h
  | cons idr rest ih =>
    intro acc h
    rcases hp : processReaction ic acc idr with e | acc2
    · have he : compileRxns ic acc (idr :: rest) = .error e := by
        simp only [compileRxns, hp]
      rw [he] at h
      obtain rfl : e = .validation := Except.error.inj h
      exact ⟨idr, List.mem_cons_self idr rest,
        processReaction_validation_cases ic acc idr hp⟩
    · have hstep : compileRxns ic acc (idr :: rest) = compileRxns ic acc2 rest := by
        simp only [compileRxns, hp]
      rw [hstep] at h
      obtain ⟨idr2, hm, hb⟩ := ih acc2 h
      exact ⟨idr2, List.mem_cons_of_mem _ hm, hb⟩

theorem withIds_snd : ∀ (k : Nat) (rs : List Reaction),
    (withIds k rs).map Prod.snd = rs := by
  intro k rs
  induction rs generalizing k with
  | nil => rfl
  | cons r t ih => simp [withIds, ih]

theorem exists_withIds (P : Reaction → Prop) (reactions : List Reaction) :
    (∃ idr ∈ withIds 0 reactions, P idr.2) ↔ ∃ r ∈ reactions, P r := by
  constructor
  · rintro ⟨idr, hm, hp⟩
    refine ⟨idr.2, ?_, hp⟩
    rw [← withIds_snd 0 reactions]
    exact List.mem_map_of_mem Prod.snd hm
  · rintro ⟨r, hm, hp⟩
    have hr : r ∈ (withIds 0 reactions).map Prod.snd := by
      rw [withIds_snd]
      exact hm
    obtain ⟨idr, hmem, heq⟩ := List.mem_map.mp hr
    refine ⟨idr, hmem, ?_⟩
    rw [heq]
    exact hp

theorem initialize_err_iff (numEntries : Nat) (reactions : List Reaction)
    (ic : Nat → Int) (e : SimErr) :
    initialize_simulation numEntries reactions ic = .error e ↔
      compileRxns ic ⟨[], [], [], [], fun _ => []⟩ (withIds 0 reactions)
        = .error e := by
  constructor
  · intro hx
    rcases hcr : compileRxns ic ⟨[], [], [], [], fun _ => []⟩ (withIds 0 reactions)
      with e2 | c
    · simp only [initialize_simulation, hcr] at hx
      exact congrArg Except.error (Except.error.inj hx)
    · simp only [initialize_simulation, hcr] at hx
      exact Except.noConfusion hx
  · intro hx
    simp only [initialize_simulation, hx]

end ArityLemmas

section MappingLemmas

theorem updMap_apply (side : List Nat) :
    ∀ (m : Nat → List Int) (ch : Int) (s : Nat),
      updMap m side ch s = m s ++ List.replicate (side.count s) ch := by
  induction side with
  | nil =>
    intro m ch s
    simp [updMap]
  | cons t ts ih =>
    intro m ch s
    have hstep : updMap m (t :: ts) ch
        = updMap (fun u => if u = t then m u ++ [ch] else m u) ts ch := rfl
    rw [hstep, ih]
    by_cases hst : s = t
    · rw [if_pos hst, List.count_cons, if_pos (by simp [hst]), List.append_assoc]
      rfl
    · rw [if_neg hst, List.count_cons,
        if_neg (by simp only [beq_iff_eq]; exact fun h => hst h.symm),
        Nat.add_zero]

theorem processReaction_ok_mapping (ic : Nat → Int) (acc : CompileAcc)
    (idr : Nat × Reaction) (acc2 : CompileAcc)
    (h : processReaction ic acc idr = .ok acc2) :
    acc2.mapping = updMap (updMap acc.mapping idr.2.reactants (2 * (idr.1 : Int)))
      idr.2.products (2 * (idr.1 : Int) + 1) := by
  rcases h1 : rowOfSide idr.2.reactants with e | r1
  · simp [processReaction, h1] at h
  rcases h2 : rowOfSide idr.2.products with e | r2
  · simp [processReaction, h1, h2] at h
  rcases h3 : coordOfSide ic idr.2.reactants with e | q1
  · simp [processReaction, h1, h2, h3] at h
  rcases h4 : coordOfSide ic idr.2.products with e | q2
  · simp [processReaction, h1, h2, h3, h4] at h
  simp only [processReaction, h1, h2, h3, h4, Except.ok.injEq] at h
  rw [← h]

theorem compileRxns_mapping (ic : Nat → Int) :
    ∀ (rs : List Reaction) (k : Nat) (acc : CompileAcc) (c : CompileAcc),
      compileRxns ic acc (withIds k rs) = .ok c →
      ∀ s, c.mapping s = acc.mapping s ++ touchListFrom k s rs := by
  intro rs
  induction rs with
  | nil =>
    intro k acc c h s
    obtain rfl := Except.ok.inj h
    simp [touchListFrom]
  | cons r rest ih =>
    intro k acc c h s
    rcases hp : processReaction ic acc (k, r) with e | acc2
    · rw [show compileRxns ic acc (withIds k (r :: rest)) = .error e from by
        simp only [withIds, compileRxns, hp]] at h
      exact Except.noConfusion h
    · rw [show compileRxns ic acc (withIds k (r :: rest))
          = compileRxns ic acc2 (withIds (k + 1) rest) from by
        simp only [withIds, compileRxns, hp]] at h
      have hm2 := ih (k + 1) acc2 c h s
      have hacc2 := processReaction_ok_mapping ic acc (k, r) acc2 hp
      rw [hm2, hacc2, updMap_apply, updMap_apply, touchListFrom]
      simp [List.append_assoc]

theorem padRow_eq (maxLen : Nat) (l : List Int) (h : l.length ≤ maxLen) :
    padRow maxLen l = l ++ List.replicate (maxLen - l.length) (-1) := by
  unfold padRow
  by_cases he : l.length = maxLen
  · rw [if_pos he, he]
    simp
  · rw [if_neg he]
    have hlt : l.length < maxLen := by omega
    have hstop : pyStop maxLen ((l.length : Int) - (maxLen : Int)) = l.length := by
      unfold pyStop
      rw [if_neg (by omega)]
      omega
    rw [hstop]
    show List.take l.length l ++ List.drop l.length (List.replicate maxLen (-1))
        = l ++ List.replicate (maxLen - l.length) (-1)
    rw [List.take_length]
    congr 1
    simp

theorem le_foldl_max : ∀ (l : List Nat) (a : Nat),
    a ≤ l.foldl max a ∧ ∀ x ∈ l, x ≤ l.foldl max a := by
  intro l
  induction l with
  | nil =>
    intro a
    exact ⟨le_refl a, by simp⟩
  | cons y ys ih =>
    intro a
    rw [List.foldl_cons]
    constructor
    · exact le_trans (le_max_left a y) (ih (max a y)).1
    · intro x hx
      rcases List.mem_cons.mp hx with rfl | hx2
      · exact le_trans (le_max_right a x) (ih (max a x)).1
      · exact (ih (max a y)).2 x hx2

theorem getD_map_range (f : Nat → List Int) (n s : Nat) (h : s < n) :
    ((List.range n).map f).getD s [] = f s := by
  rw [List.getD_eq_getElem?_getD, List.getElem?_map, List.getElem?_range h]
  rfl

theorem touchListFrom_mem : ∀ (rs : List Reaction) (k i : Nat) (r : Reaction)
    (s : Nat), rs.get? i = some r →
      (s ∈ r.reactants → (2 * ((k + i : Nat) : Int)) ∈ touchListFrom k s rs) ∧
      (s ∈ r.products → (2 * ((k + i : Nat) : Int) + 1) ∈ touchListFrom k s rs) := by
  intro rs
  induction rs with
  | nil =>
    intro k i r s h
    simp at h
  | cons r0 rest ih =>
    intro k i r s h
    cases i with
    | zero =>
      obtain rfl : r0 = r := by simpa using h
      rw [touchListFrom]
      constructor
      · intro hmem
        apply List.mem_append_left
        apply List.mem_append_left
        rw [List.mem_replicate]
        refine ⟨?_, by norm_num⟩
        have := List.count_pos_iff.mpr hmem
        omega
      · intro hmem
        apply List.mem_append_left
        apply List.mem_append_right
        rw [List.mem_replicate]
        refine ⟨?_, by norm_num⟩
        have := List.count_pos_iff.mpr hmem
        omega
    | succ j =>
      have hrec := ih (k + 1) j r s (by simpa using h)
      have harith : k + (j + 1) = (k + 1) + j := by omega
      rw [touchListFrom, harith]
      constructor
      · intro hm
        exact List.mem_append_right _ (hrec.1 hm)
      · intro hm
        exact List.mem_append_right _ (hrec.2 hm)

end MappingLemmas

/-- C5: for every species index below the species-table size, the compiled
`species_rxn_mapping` row of that species is exactly its channel list (every
channel `2*id` for a reactant occurrence and `2*id + 1` for a product
occurrence, in network order) followed by `-1` sentinel padding; in
particular every channel touching the species, including species whose lists
are shorter than the widest list, occurs in the row. -/
theorem C5_species_rxn_mapping_rows (numEntries : Nat)
    (reactions : List Reaction) (ic : Nat → Int) (res : InitResult)
    (hres : initialize_simulation numEntries reactions ic = .ok res) :
    ∀ s, s < numEntries →
      (∃ pad, res.mapping.getD s []
        = touchList reactions s ++ List.replicate pad (-1)) ∧
      ∀ id r, reactions.get? id = some r →
        (s ∈ r.reactants → (2 * (id : Int)) ∈ res.mapping.getD s []) ∧
        (s ∈ r.products → (2 * (id : Int) + 1) ∈ res.mapping.getD s []) := by
  rcases hcr : compileRxns ic ⟨[], [], [], [], fun _ => []⟩ (withIds 0 reactions)
    with e | c
  · simp only [initialize_simulation, hcr] at hres
    exact Except.noConfusion hres
  · simp only [initialize_simulation, hcr, Except.ok.injEq] at hres
    obtain rfl := hres
    intro s hs
    have hcm : ∀ u, c.mapping u = touchList reactions u := by
      intro u
      have h := compileRxns_mapping ic reactions 0
        ⟨[], [], [], [], fun _ => []⟩ c hcr u
      simpa [touchList] using h
    have hrow : ((List.range numEntries).map (fun t =>
        padRow (((List.range numEntries).map
          (fun t => (c.mapping t).length)).foldl max 0) (c.mapping t))).getD s []
        = padRow (((List.range numEntries).map
            (fun t => (c.mapping t).length)).foldl max 0) (c.mapping s) :=
      getD_map_range _ numEntries s hs
    have hlenmem : (c.mapping s).length ∈
        (List.range numEntries).map (fun t => (c.mapping t).length) :=
      List.mem_map_of_mem _ (List.mem_range.mpr hs)
    have hlen : (c.mapping s).length ≤
        ((List.range numEntries).map (fun t => (c.mapping t).length)).foldl max 0 :=
      (le_foldl_max _ 0).2 _ hlenmem
    refine ⟨?_, ?_⟩
    · refine ⟨((List.range numEntries).map
        (fun t => (c.mapping t).length)).foldl max 0 - (c.mapping s).length, ?_⟩
      show ((List.range numEntries).map (fun t =>
        padRow _ (c.mapping t))).getD s [] = _
      rw [hrow, padRow_eq _ _ hlen, hcm s]
    · intro id r hid
      constructor
      · intro hmem
        show (2 * (id : Int)) ∈ ((List.range numEntries).map (fun t =>
          padRow _ (c.mapping t))).getD s []
        rw [hrow, padRow_eq _ _ hlen, hcm s]
        apply List.mem_append_left
        have h := (touchListFrom_mem reactions 0 id r s hid).1 hmem
        simpa [touchList] using h
      · intro hmem
        show (2 * (id : Int) + 1) ∈ ((List.range numEntries).map (fun t =>
          padRow _ (c.mapping t))).getD s []
        rw [hrow, padRow_eq _ _ hlen, hcm s]
        apply List.mem_append_left
        have h := (touchListFrom_mem reactions 0 id r s hid).2 hmem
        simpa [touchList] using h

theorem C5_species_rxn_mapping_rows_witness :
    (2 * ((0 : Nat) : Int)) ∈ (([[0], [1]] : List (List Int)).getD 0 []) := by
  have h := C5_species_rxn_mapping_rows 2 [⟨[0], [1], 1, 1⟩] (fun _ => 0)
    ⟨[0, 0], [[0], [1]], [((0:Int), -1)], [((1:Int), -1)],
      [((0:Int) : ℚ), ((0:Int) : ℚ)], [1, 1]⟩ rfl
  exact ((h 0 (by decide)).2 0 ⟨[0], [1], 1, 1⟩ rfl).1 (by decide)

/-- C6 (amended): `initialize_simulation` aborts the whole compilation with
an error if and only if some reaction has a side whose arity is neither 1
nor 2; the specific validation error (`RuntimeError` for unsupported
reactions) is raised only when an offending side is empty, while a side with
three or more species aborts earlier with the numpy index error from filling
its 2-column row. -/
theorem C6_arity_error_characterization (numEntries : Nat)
    (reactions : List Reaction) (ic : Nat → Int) :
    ((∃ e, initialize_simulation numEntries reactions ic = .error e) ↔
      ∃ r ∈ reactions,
        (r.reactants.length ≠ 1 ∧ r.reactants.length ≠ 2) ∨
        (r.products.length ≠ 1 ∧ r.products.length ≠ 2)) ∧
    (initialize_simulation numEntries reactions ic = .error .validation →
      ∃ r ∈ reactions, r.reactants.length = 0 ∨ r.products.length = 0) := by
  constructor
  · constructor
    · rintro ⟨e, he⟩
      have hc := (initialize_err_iff numEntries reactions ic e).mp he
      obtain ⟨idr, hm, hb⟩ :=
        (compileRxns_err_iff ic (withIds 0 reactions) ⟨[], [], [], [], fun _ => []⟩).mp
          ⟨e, hc⟩
      have := (exists_withIds (fun r =>
        ¬((r.reactants.length = 1 ∨ r.reactants.length = 2) ∧
          (r.products.length = 1 ∨ r.products.length = 2))) reactions).mp
        ⟨idr, hm, hb⟩
      obtain ⟨r, hmr, hbr⟩ := this
      exact ⟨r, hmr, by tauto⟩
    · rintro ⟨r, hm, hbad⟩
      have hb : ¬((r.reactants.length = 1 ∨ r.reactants.length = 2) ∧
          (r.products.length = 1 ∨ r.products.length = 2)) := by tauto
      obtain ⟨e, he⟩ :=
        (compileRxns_err_iff ic (withIds 0 reactions) ⟨[], [], [], [], fun _ => []⟩).mpr
          ((exists_withIds (fun r =>
            ¬((r.reactants.length = 1 ∨ r.reactants.length = 2) ∧
              (r.products.length = 1 ∨ r.products.length = 2))) reactions).mpr
            ⟨r, hm, hb⟩)
      exact ⟨e, (initialize_err_iff numEntries reactions ic e).mpr he⟩
  · intro hv
    have hc := (initialize_err_iff numEntries reactions ic .validation).mp hv
    obtain ⟨idr, hm, hb⟩ :=
      compileRxns_validation ic (withIds 0 reactions) ⟨[], [], [], [], fun _ => []⟩ hc
    exact (exists_withIds
      (fun r => r.reactants.length = 0 ∨ r.products.length = 0) reactions).mp
      ⟨idr, hm, hb⟩

/-- C6 counterexample: the network whose single reaction has three reactants
(arity outside {1,2}) makes `initialize_simulation` raise the numpy
out-of-bounds index error, not the claimed validation error, refuting the
claim that a validation error is raised whenever some side's arity is
neither 1 nor 2. -/
theorem C6_counterexample_triple_reactant :
    (netTriple.getD 0 ⟨[], [], 0, 0⟩).reactants.length = 3 ∧
    initialize_simulation 2 netTriple (fun _ => 0) = .error .indexError ∧
    initialize_simulation 2 netTriple (fun _ => 0) ≠ .error .validation := by
  refine ⟨rfl, rfl, ?_⟩
  intro h
  have : SimErr.indexError = SimErr.validation :=
    Except.error.inj ((rfl :
      initialize_simulation 2 netTriple (fun _ => 0) = .error .indexError).symm.trans h)
  exact SimErr.noConfusion this

end KMC
